import Mathlib

/-!
Verification of the copypod pod-copying tool against its specification.

The development shallowly embeds the pod-transformation pipeline of
`src/copypod/pod_config.py`, the polling / deletion helpers of
`src/copypod/kube.py`, and the interactive-mode tail of
`src/copypod/main.py`.  Kubernetes model objects (`V1Pod`, `V1Container`,
...) are embedded as Lean structures carrying exactly the fields the code
touches; Python `None` becomes `Option.none`; Python dict fields carrying
string keys and values become association lists with insert-or-overwrite
update; Python's truthiness tests on strings and lists are made explicit
(`= ""`, `= []`).  Functions that can raise return `Except`.
-/

namespace Copypod

/-- Errors raised by the transformation pipeline.  The Python code raises a
single `CopypodError` class with distinct messages; the spec names the
distinct failure kinds, so we give each raise site its own constructor.
`indexError` models Python's built-in `IndexError` arising from an
unguarded `pod.spec.containers[0]` access on an empty container list. -/
inductive PodConfigError where
  | ambiguousContainer
  | containerNotFound
  | invalidEnvVar
  | indexError
  deriving DecidableEq, Repr

/-- Message text attached to each `CopypodError` raise site in
`pod_config.py` (the `indexError` case has no message of its own). -/
def PodConfigError.message : PodConfigError → String
  | .ambiguousContainer =>
      "Pod contains multiple containers but --container was not specified"
  | .containerNotFound => "The specified container was not found in the pod"
  | .invalidEnvVar =>
      "Environment variables need to be provided in the format: NAME=value"
  | .indexError => "IndexError"

/-- Embeds `kubernetes.client.V1EnvVar` as used by `configure_container`. -/
structure V1EnvVar where
  name : String
  value : String
  deriving DecidableEq, Repr

/-- Embeds `kubernetes.client.V1Capabilities` (only the `add` field is
touched by the code). -/
structure V1Capabilities where
  add : Option (List String)
  deriving DecidableEq, Repr

/-- Embeds `kubernetes.client.V1SecurityContext` (only `capabilities` is
touched by the code). -/
structure V1SecurityContext where
  capabilities : Option V1Capabilities
  deriving DecidableEq, Repr

/-- Embeds the fields of `kubernetes.client.V1Container` that the pipeline
reads or writes.  Probe and resource sub-objects are never inspected, only
cleared, so they are embedded as `Option Unit`. -/
structure V1Container where
  name : String
  image : String
  command : Option (List String)
  args : Option (List String)
  env : Option (List V1EnvVar)
  liveness_probe : Option Unit
  readiness_probe : Option Unit
  startup_probe : Option Unit
  resources : Option Unit
  security_context : Option V1SecurityContext
  deriving DecidableEq, Repr

/-- Embeds the fields of `kubernetes.client.V1ObjectMeta` the pipeline
touches.  Python dicts of annotations/labels become association lists. -/
structure V1ObjectMeta where
  name : String
  annotations : Option (List (String × String))
  labels : Option (List (String × String))
  creation_timestamp : Option Nat
  owner_references : Option Unit
  resource_version : Option String
  uid : Option String
  deriving DecidableEq, Repr

/-- Embeds the fields of `kubernetes.client.V1PodSpec` the pipeline
touches. -/
structure V1PodSpec where
  containers : List V1Container
  affinity : Option Unit
  node_name : Option String
  restart_policy : Option String
  deriving DecidableEq, Repr

/-- Embeds `pod.status` as far as the code looks at it: the polling loop
reads `status.phase`; `clear_fields` replaces the whole status with an
empty object, embedded as `none`. -/
structure V1PodStatus where
  phase : Option String
  deriving DecidableEq, Repr

/-- Embeds `kubernetes.client.V1Pod` (metadata, spec, status). -/
structure V1Pod where
  metadata : V1ObjectMeta
  spec : V1PodSpec
  status : Option V1PodStatus
  deriving DecidableEq, Repr

/-- Python truthiness of an optional string argument: `None` and the empty
string are both falsy (`if not container_name:` / `if not suffix:`). -/
def strFalsy (s : Option String) : Bool :=
  s.getD "" = ""

/-- Embeds the dict comprehension `{c.name: c for c in pod.spec.containers}`
followed by the lookup `found_containers[container_name]`: a later
container overwrites an earlier one with the same name, so the lookup
yields the last container bearing the name. -/
def selectContainer (containers : List V1Container) (container_name : String) :
    Option V1Container :=
  (containers.filter (fun c => c.name = container_name)).getLast?

/-- Embeds `pod_config.remove_extra_containers` (pod_config.py lines
28-43): with no (or an empty) container name, fail when the pod has more
than one container, otherwise return the pod unchanged; with a name, fail
when no container bears it, otherwise narrow the container list to the
named container. -/
def remove_extra_containers (pod : V1Pod) (container_name : Option String) :
    Except PodConfigError V1Pod :=
  if strFalsy container_name then
    if pod.spec.containers.length > 1 then
      .error .ambiguousContainer
    else
      .ok pod
  else
    match selectContainer pod.spec.containers (container_name.getD "") with
    | none => .error .containerNotFound
    | some c => .ok { pod with spec := { pod.spec with containers := [c] } }

/-- A concrete container with every optional field absent, for witnesses. -/
def mkContainer (n : String) : V1Container :=
  { name := n, image := "nginx", command := none, args := none, env := none
    liveness_probe := none, readiness_probe := none, startup_probe := none
    resources := none, security_context := none }

/-- A concrete pod metadata value for witnesses. -/
def mkMeta (n : String) : V1ObjectMeta :=
  { name := n, annotations := none, labels := none, creation_timestamp := none
    owner_references := none, resource_version := none, uid := none }

/-- A concrete pod with the given name and containers, for witnesses. -/
def mkPod (n : String) (cs : List V1Container) : V1Pod :=
  { metadata := mkMeta n
    spec := { containers := cs, affinity := none, node_name := none
              restart_policy := some "Always" }
    status := some { phase := some "Running" } }

theorem selectContainer_mem {cs : List V1Container} {n : String}
    {c : V1Container} (h : selectContainer cs n = some c) :
    c ∈ cs ∧ c.name = n := by
  rcases List.mem_getLast?_eq_getLast (Option.mem_def.mpr h) with ⟨hne, hc⟩
  have hmem : c ∈ cs.filter (fun d => d.name = n) := hc ▸ List.getLast_mem hne
  have hfilter := List.of_mem_filter hmem
  exact ⟨List.mem_of_mem_filter hmem, by simpa using hfilter⟩

theorem selectContainer_isSome {cs : List V1Container} {n : String}
    (h : n ∈ cs.map V1Container.name) : (selectContainer cs n).isSome := by
  rcases List.mem_map.1 h with ⟨c, hc, hn⟩
  have hne : cs.filter (fun d => d.name = n) ≠ [] := by
    intro hnil
    have : c ∈ cs.filter (fun d => d.name = n) := by
      apply List.mem_filter.2
      exact ⟨hc, by simp [hn]⟩
    simp [hnil] at this
  unfold selectContainer
  cases hl : (cs.filter (fun d => d.name = n)).getLast? with
  | none => exact absurd (List.getLast?_eq_none_iff.1 hl) hne
  | some c0 => simp

/-- C1.  Container selection (`remove_extra_containers`):
with more than one container and no name, the stage fails with the
ambiguous-container error; with a name absent from the pod's containers it
fails with the container-not-found error; with a name borne by some
container, the resulting pod's container list is exactly one container,
that container bears the requested name and comes from the input pod, and
nothing else of the pod changes. -/
theorem remove_extra_containers_spec (pod : V1Pod) (n : String)
    (hn : n ≠ "") :
    (1 < pod.spec.containers.length →
      remove_extra_containers pod none = .error .ambiguousContainer) ∧
    (n ∉ pod.spec.containers.map V1Container.name →
      remove_extra_containers pod (some n) = .error .containerNotFound) ∧
    (n ∈ pod.spec.containers.map V1Container.name →
      ∃ c, c ∈ pod.spec.containers ∧ c.name = n ∧
        remove_extra_containers pod (some n) =
          .ok { pod with spec := { pod.spec with containers := [c] } }) := by
  refine ⟨?_, ?_, ?_⟩
  · intro hlen
    simp [remove_extra_containers, strFalsy, Nat.lt_iff_add_one_le] at *
    omega
  · intro habs
    have hsel : selectContainer pod.spec.containers n = none := by
      cases hs : selectContainer pod.spec.containers n with
      | none => rfl
      | some c =>
          rcases selectContainer_mem hs with ⟨hc, hcn⟩
          exact absurd (List.mem_map.2 ⟨c, hc, hcn⟩) habs
    simp [remove_extra_containers, strFalsy, hn, hsel]
  · intro hmem
    have hs := selectContainer_isSome hmem
    cases hsel : selectContainer pod.spec.containers n with
    | none => rw [hsel] at hs; simp at hs
    | some c =>
        rcases selectContainer_mem hsel with ⟨hc, hcn⟩
        exact ⟨c, hc, hcn, by simp [remove_extra_containers, strFalsy, hn, hsel]⟩

/-- Witness for C1 on a concrete two-container pod: selection without a
name is ambiguous, an unknown name is rejected, and the known name "b"
narrows the list to that container. -/
theorem remove_extra_containers_spec_witness :
    remove_extra_containers (mkPod "web" [mkContainer "a", mkContainer "b"])
        none = .error .ambiguousContainer ∧
    remove_extra_containers (mkPod "web" [mkContainer "a", mkContainer "b"])
        (some "c") = .error .containerNotFound ∧
    (∃ c, c ∈ (mkPod "web" [mkContainer "a", mkContainer "b"]).spec.containers ∧
      c.name = "b" ∧
      remove_extra_containers (mkPod "web" [mkContainer "a", mkContainer "b"])
          (some "b") =
        .ok { mkPod "web" [mkContainer "a", mkContainer "b"] with
                spec := { (mkPod "web" [mkContainer "a", mkContainer "b"]).spec with
                            containers := [c] } }) := by
  have h1 := (remove_extra_containers_spec
      (mkPod "web" [mkContainer "a", mkContainer "b"]) "c" (by decide)).2.1
  have h2 := (remove_extra_containers_spec
      (mkPod "web" [mkContainer "a", mkContainer "b"]) "b" (by decide)).2.2
  have h0 := (remove_extra_containers_spec
      (mkPod "web" [mkContainer "a", mkContainer "b"]) "b" (by decide)).1
  exact ⟨h0 (by decide), h1 (by decide), h2 (by decide)⟩

/-- Insert-or-overwrite on an association list, embedding assignment
`d[k] = v` on a Python dict: an existing key keeps its position and gets
the new value, a new key is appended. -/
def setAnn : List (String × String) → String → String → List (String × String)
  | [], k, v => [(k, v)]
  | p :: rest, k, v =>
      if p.1 = k then (k, v) :: setAnn rest k v else p :: setAnn rest k v

/-- Lookup on an association list, embedding `d[k]` / `d.get(k)`. -/
def annLookup : List (String × String) → String → Option String
  | [], _ => none
  | p :: rest, k => if p.1 = k then some p.2 else annLookup rest k

theorem annLookup_setAnn_self (m : List (String × String)) (k v : String) :
    annLookup (setAnn m k v) k = some v := by
  induction m with
  | nil => simp [setAnn, annLookup]
  | cons p rest ih =>
      by_cases h : p.1 = k
      · simp [setAnn, h, annLookup]
      · simp [setAnn, h, annLookup, ih]

theorem annLookup_setAnn_other (m : List (String × String)) {k k0 : String}
    (v : String) (h : k ≠ k0) :
    annLookup (setAnn m k0 v) k = annLookup m k := by
  induction m with
  | nil =>
      have : ¬ k0 = k := fun hh => h hh.symm
      simp [setAnn, annLookup, this]
  | cons p rest ih =>
      by_cases hp : p.1 = k0
      · have : ¬ k0 = k := fun hh => h hh.symm
        simp [setAnn, hp, annLookup, this, ih, hp.symm ▸ this]
      · simp [setAnn, hp, annLookup, ih]

/-- The annotation mapping of a pod, with Python's
`if pod.metadata.annotations is None: pod.metadata.annotations = \x7b\x7d`
initialization made explicit via `getD []`. -/
def annotationsOf (pod : V1Pod) : List (String × String) :=
  pod.metadata.annotations.getD []

/-- Embeds `pod_config.add_annotations` (pod_config.py lines 46-60):
initializes the annotation dict when absent, then sets `creator` to the
invoking user (the `getuser()` result is passed in as `user`),
`original-pod` to the pod's current name, and the two marker keys. -/
def add_annotations (user : String) (pod : V1Pod) : V1Pod :=
  let ann := annotationsOf pod
  let ann := setAnn ann "creator" user
  let ann := setAnn ann "original-pod" pod.metadata.name
  let ann := setAnn ann "karpenter.sh/do-not-disrupt" "true"
  let ann := setAnn ann "sentry/ignore-pod-updates" "true"
  { pod with metadata := { pod.metadata with annotations := some ann } }

/-- C4.  Annotation stage (`add_annotations`): afterwards the annotation
mapping sends `creator` to the invoking user, `original-pod` to the source
pod's name, and the disruption-opt-out and update-suppression markers to
"true"; every annotation of the input pod under any other key is still
present with its value unchanged. -/
theorem add_annotations_spec (user : String) (pod : V1Pod) :
    annLookup (annotationsOf (add_annotations user pod)) "creator" = some user ∧
    annLookup (annotationsOf (add_annotations user pod)) "original-pod" =
      some pod.metadata.name ∧
    annLookup (annotationsOf (add_annotations user pod))
      "karpenter.sh/do-not-disrupt" = some "true" ∧
    annLookup (annotationsOf (add_annotations user pod))
      "sentry/ignore-pod-updates" = some "true" ∧
    ∀ k v, k ≠ "creator" → k ≠ "original-pod" →
      k ≠ "karpenter.sh/do-not-disrupt" → k ≠ "sentry/ignore-pod-updates" →
      annLookup (annotationsOf pod) k = some v →
      annLookup (annotationsOf (add_annotations user pod)) k = some v := by
  have hout : annotationsOf (add_annotations user pod) =
      setAnn (setAnn (setAnn (setAnn (annotationsOf pod) "creator" user)
        "original-pod" pod.metadata.name)
        "karpenter.sh/do-not-disrupt" "true")
        "sentry/ignore-pod-updates" "true" := rfl
  refine ⟨?_, ?_, ?_, ?_, ?_⟩
  · rw [hout]
    rw [annLookup_setAnn_other _ _ (by decide),
        annLookup_setAnn_other _ _ (by decide),
        annLookup_setAnn_other _ _ (by decide),
        annLookup_setAnn_self]
  · rw [hout]
    rw [annLookup_setAnn_other _ _ (by decide),
        annLookup_setAnn_other _ _ (by decide),
        annLookup_setAnn_self]
  · rw [hout]
    rw [annLookup_setAnn_other _ _ (by decide), annLookup_setAnn_self]
  · rw [hout, annLookup_setAnn_self]
  · intro k v h1 h2 h3 h4 hin
    rw [hout]
    rw [annLookup_setAnn_other _ _ h4, annLookup_setAnn_other _ _ h3,
        annLookup_setAnn_other _ _ h2, annLookup_setAnn_other _ _ h1, hin]

/-- A concrete pod carrying a pre-existing annotation, for the C4
witness. -/
def podWithAnn : V1Pod :=
  { mkPod "web" [mkContainer "a"] with
      metadata := { mkMeta "web" with annotations := some [("team", "x")] } }

/-- Witness for C4 on a concrete pod that already carries the annotation
`team = x`: the four pipeline keys are set and `team` survives
unchanged. -/
theorem add_annotations_spec_witness :
    annLookup (annotationsOf (add_annotations "alice" podWithAnn)) "creator" =
      some "alice" ∧
    annLookup (annotationsOf (add_annotations "alice" podWithAnn))
      "original-pod" = some "web" ∧
    annLookup (annotationsOf (add_annotations "alice" podWithAnn)) "team" =
      some "x" := by
  have h := add_annotations_spec "alice" podWithAnn
  exact ⟨h.1, h.2.1, h.2.2.2.2 "team" "x" (by decide) (by decide) (by decide)
    (by decide) (by decide)⟩

/-- Embeds `pod_config.set_pod_name` (pod_config.py lines 84-90): when the
caller-supplied suffix is `None` or empty, a freshly generated random
6-character suffix is used instead (the `random.choices` result is passed
in as `generated`); the pod's name becomes `pod-copy-` followed by the
suffix. -/
def set_pod_name (pod : V1Pod) (suffix : Option String) (generated : String) :
    V1Pod :=
  let s := if strFalsy suffix then generated else suffix.getD ""
  { pod with metadata := { pod.metadata with name := "pod-copy-" ++ s } }

/-- Counterexample to C5 as stated: for the source pod named `pod-copy-x`
and caller-supplied suffix `x`, the assigned name equals the source pod's
name, so the new name is NOT distinct from the source name for every pod
and suffix. -/
theorem set_pod_name_collision :
    (set_pod_name (mkPod "pod-copy-x" [mkContainer "a"]) (some "x")
        "abc123").metadata.name =
      (mkPod "pod-copy-x" [mkContainer "a"]).metadata.name := by
  decide

/-- C5 (amended).  Name assignment (`set_pod_name`): the assigned name is
`pod-copy-` followed by the effective suffix (the caller-supplied one, or
the generated one when none was supplied), and it differs from the source
pod's name whenever the source name is not itself exactly `pod-copy-`
followed by that suffix — no check excludes that residual case. -/
theorem set_pod_name_spec (pod : V1Pod) (suffix : Option String)
    (generated : String) :
    (set_pod_name pod suffix generated).metadata.name =
      "pod-copy-" ++ (if strFalsy suffix then generated else suffix.getD "") ∧
    (pod.metadata.name ≠
        "pod-copy-" ++ (if strFalsy suffix then generated else suffix.getD "") →
      (set_pod_name pod suffix generated).metadata.name ≠ pod.metadata.name) := by
  refine ⟨rfl, ?_⟩
  intro h heq
  exact h (heq ▸ rfl)

/-- Witness for C5 (amended) on a concrete pod named `web` with suffix
`x1`: the assigned name is `pod-copy-x1`, distinct from `web`. -/
theorem set_pod_name_spec_witness :
    (set_pod_name (mkPod "web" [mkContainer "a"]) (some "x1")
        "abc123").metadata.name = "pod-copy-" ++ "x1" ∧
    (set_pod_name (mkPod "web" [mkContainer "a"]) (some "x1")
        "abc123").metadata.name ≠ (mkPod "web" [mkContainer "a"]).metadata.name := by
  have h := set_pod_name_spec (mkPod "web" [mkContainer "a"]) (some "x1") "abc123"
  exact ⟨h.1, h.2 (by decide)⟩

/-- Embeds `pod_config.clear_fields` (pod_config.py lines 63-81): clears
identity and runtime fields, replaces the labels with the fixed marker
set, strips probes and resources from the first container, forces the
restart policy to "Never" and empties the status.  The unguarded
`pod.spec.containers[0]` access surfaces as `indexError` on an empty
container list. -/
def clear_fields (pod : V1Pod) : Except PodConfigError V1Pod :=
  match pod.spec.containers with
  | [] => .error .indexError
  | c :: rest =>
      .ok { pod with
        metadata := { pod.metadata with
          creation_timestamp := none
          labels := some [("copypod", "true")]
          owner_references := none
          resource_version := none
          uid := none }
        spec := { pod.spec with
          containers := { c with
            liveness_probe := none
            readiness_probe := none
            startup_probe := none
            resources := none } :: rest
          affinity := none
          node_name := none
          restart_policy := some "Never" }
        status := none }

/-- Splits a character list at the first occurrence of a separator
character, returning the parts before and after it, or `none` when the
separator does not occur. -/
def splitEqAux : List Char → Option (List Char × List Char)
  | [] => none
  | c :: cs =>
      if c = '=' then some ([], cs)
      else (splitEqAux cs).map (fun p => (c :: p.1, p.2))

/-- Embeds the Python expression `env_var.split("=", 1)` as unpacked into
`name, value` in `configure_container`: when the string contains no `=`
the unpacking raises (modelled by `none`), otherwise the string is split
at the first `=` only. -/
def splitFirstEq (s : String) : Option (String × String) :=
  (splitEqAux s.data).map (fun p => (String.mk p.1, String.mk p.2))

theorem splitEqAux_eq_none {cs : List Char} :
    splitEqAux cs = none ↔ '=' ∉ cs := by
  induction cs with
  | nil => simp [splitEqAux]
  | cons c cs ih =>
      by_cases h : c = '='
      · simp [splitEqAux, h]
      · have hne : ¬ '=' = c := fun hh => h hh.symm
        simp [splitEqAux, h, ih, hne]

theorem splitEqAux_eq_some {cs a b : List Char}
    (h : splitEqAux cs = some (a, b)) : cs = a ++ '=' :: b ∧ '=' ∉ a := by
  induction cs generalizing a b with
  | nil => simp [splitEqAux] at h
  | cons c cs ih =>
      by_cases hc : c = '='
      · subst hc
        have h' : (([], cs) : List Char × List Char) = (a, b) := by
          simpa [splitEqAux] using h
        cases h'
        simp
      · rw [show splitEqAux (c :: cs) =
            (splitEqAux cs).map (fun p => (c :: p.1, p.2)) from by
              simp [splitEqAux, hc]] at h
        rcases Option.map_eq_some'.mp h with ⟨⟨a0, b0⟩, hs, heq⟩
        obtain ⟨ha, hb⟩ : c :: a0 = a ∧ b0 = b := by simpa using heq
        rcases ih hs with ⟨hcs, hnotin⟩
        subst hb
        refine ⟨?_, ?_⟩
        · rw [← ha, hcs]; simp
        · rw [← ha]
          intro hmem
          rcases List.mem_cons.mp hmem with h1 | h2
          · exact hc h1.symm
          · exact hnotin h2

/-- Embeds the environment-variable loop of `configure_container`
(pod_config.py lines 106-113): each string is split on the first `=` into
a name/value pair appended to the environment list; a string without `=`
raises the invalid-environment-variable error, aborting the loop. -/
def appendEnvVars (env : List V1EnvVar) :
    List String → Except PodConfigError (List V1EnvVar)
  | [] => .ok env
  | v :: rest =>
      match splitFirstEq v with
      | none => .error .invalidEnvVar
      | some (n, val) => appendEnvVars (env ++ [⟨n, val⟩]) rest

theorem appendEnvVars_mem_error {vars : List String} {s : String}
    (hs : s ∈ vars) (hno : splitFirstEq s = none) :
    ∀ env, appendEnvVars env vars = .error .invalidEnvVar := by
  induction vars with
  | nil => cases hs
  | cons v rest ih =>
      intro env
      rcases List.mem_cons.mp hs with rfl | hmem
      · simp [appendEnvVars, hno]
      · cases hv : splitFirstEq v with
        | none => simp [appendEnvVars, hv]
        | some p =>
            cases p
            simp only [appendEnvVars, hv]
            exact ih hmem _

theorem appendEnvVars_error {env : List V1EnvVar} {vars : List String}
    {e : PodConfigError} (h : appendEnvVars env vars = .error e) :
    e = .invalidEnvVar := by
  induction vars generalizing env with
  | nil => simp [appendEnvVars] at h
  | cons v rest ih =>
      unfold appendEnvVars at h
      cases hs : splitFirstEq v with
      | none => rw [hs] at h; cases h; rfl
      | some p => rw [hs] at h; exact ih h

/-- Embeds `pod_config.configure_container` (pod_config.py lines 93-115):
replaces the first container's command with the shell-split command string
(the stdlib `shlex.split` tokenizer is passed in as `shlexSplit`), clears
its arguments, overrides the image when a non-empty one is given, and
appends the parsed environment variables.  The unguarded
`pod.spec.containers[0]` access surfaces as `indexError` on an empty
container list. -/
def configure_container (shlexSplit : String → List String) (pod : V1Pod)
    (command : String) (image : Option String)
    (environment_variables : Option (List String)) :
    Except PodConfigError V1Pod :=
  match pod.spec.containers with
  | [] => .error .indexError
  | c :: rest =>
      let c1 : V1Container :=
        { c with command := some (shlexSplit command), args := none }
      let c2 : V1Container :=
        if image.getD "" = "" then c1 else { c1 with image := image.getD "" }
      let vars := environment_variables.getD []
      if vars = [] then
        .ok { pod with spec := { pod.spec with containers := c2 :: rest } }
      else
        match appendEnvVars (c2.env.getD []) vars with
        | .error e => .error e
        | .ok env =>
            .ok { pod with spec := { pod.spec with
              containers := { c2 with env := some env } :: rest } }

/-- Splits a character list on the comma character, keeping empty
segments, with the segment accumulated so far as the first argument:
embeds Python `str.split(",")`. -/
def splitComma : List Char → List Char → List (List Char)
  | acc, [] => [acc.reverse]
  | acc, c :: cs =>
      if c = ',' then acc.reverse :: splitComma [] cs
      else splitComma (c :: acc) cs

/-- Embeds `i.upper().split(",")`: upper-case every character (these
capability tokens are ASCII, where Python `str.upper` agrees with
`Char.toUpper`), then split on commas. -/
def upperSplitComma (s : String) : List String :=
  (splitComma [] (s.data.map Char.toUpper)).map String.mk

/-- Embeds the flattening expression of `add_capabilities`:
`chain.from_iterable([i.upper().split(",") for i in capabilities])`. -/
def flattenCaps (capabilities : List String) : List String :=
  (capabilities.map upperSplitComma).flatten

/-- The "add" capability list of a container, read through the optional
security-context and capabilities sub-objects (absent pieces read as an
empty list). -/
def containerAddList (c : V1Container) : List String :=
  (((c.security_context.getD { capabilities := none }).capabilities.getD
    { add := none }).add).getD []

/-- Embeds `pod_config.add_capabilities` (pod_config.py lines 118-136):
with an empty capability list the pod is returned untouched; otherwise the
comma-separated groups are flattened and upper-cased, the security-context
and capabilities sub-objects of the first container are created when
absent (Python truthiness: a `None` object, and also an empty pre-existing
"add" list, take the assignment branch), and the tokens are appended to
the pre-existing "add" list.  The unguarded `pod.spec.containers[0]`
access surfaces as `indexError` on an empty container list. -/
def add_capabilities (pod : V1Pod) (capabilities : List String) :
    Except PodConfigError V1Pod :=
  if capabilities = [] then .ok pod
  else
    match pod.spec.containers with
    | [] => .error .indexError
    | c :: rest =>
        let caps := flattenCaps capabilities
        let sc := c.security_context.getD { capabilities := none }
        let cap := sc.capabilities.getD { add := none }
        let newAdd :=
          match cap.add with
          | some l => if l = [] then caps else l ++ caps
          | none => caps
        let cap2 : V1Capabilities := { cap with add := some newAdd }
        let sc2 : V1SecurityContext := { sc with capabilities := some cap2 }
        let c2 : V1Container := { c with security_context := some sc2 }
        .ok { pod with spec := { pod.spec with containers := c2 :: rest } }

theorem configure_container_ne_indexError {shlexSplit : String → List String}
    {pod : V1Pod} {cmd : String} {img : Option String}
    {envs : Option (List String)} {c : V1Container} {rest : List V1Container}
    (hcs : pod.spec.containers = c :: rest) :
    configure_container shlexSplit pod cmd img envs ≠ .error .indexError := by
  intro h
  simp only [configure_container, hcs] at h
  split at h
  · exact absurd h (by simp)
  · split at h
    · rename_i e heq
      obtain rfl : e = PodConfigError.indexError := by simpa using h
      exact absurd (appendEnvVars_error heq) (by decide)
    · exact absurd h (by simp)

/-- The first container after the command, argument and image rewrites of
`configure_container`, spelled out for proofs. -/
def cmdContainer (shlexSplit : String → List String) (cmd : String)
    (img : Option String) (c : V1Container) : V1Container :=
  let c1 : V1Container :=
    { c with command := some (shlexSplit cmd), args := none }
  if img.getD "" = "" then c1 else { c1 with image := img.getD "" }

theorem cmdContainer_env (shlexSplit : String → List String) (cmd : String)
    (img : Option String) (c : V1Container) :
    (cmdContainer shlexSplit cmd img c).env = c.env := by
  unfold cmdContainer
  split <;> rfl

/-- Helper shared by the environment-variable claims: a string that splits
at its first `=` into `(n, v)` makes `configure_container` succeed and
append exactly the entry `n = v` to the first container's environment
list. -/
theorem configure_container_appends {shlexSplit : String → List String}
    {pod : V1Pod} {cmd : String} {img : Option String} {s n v : String}
    {c : V1Container} {rest : List V1Container}
    (hc : pod.spec.containers = c :: rest)
    (hsp : splitFirstEq s = some (n, v)) :
    ∃ pod' c0,
      configure_container shlexSplit pod cmd img (some [s]) = .ok pod' ∧
      pod'.spec.containers = c0 :: rest ∧
      c0.env = some (c.env.getD [] ++ [⟨n, v⟩]) := by
  refine ⟨{ pod with spec := { pod.spec with containers :=
      { cmdContainer shlexSplit cmd img c with
        env := some ((cmdContainer shlexSplit cmd img c).env.getD [] ++ [⟨n, v⟩]) } :: rest } },
    { cmdContainer shlexSplit cmd img c with
        env := some ((cmdContainer shlexSplit cmd img c).env.getD [] ++ [⟨n, v⟩]) },
    ?_, rfl, ?_⟩
  · by_cases himg : img.getD "" = "" <;>
      simp [configure_container, hc, appendEnvVars, hsp, cmdContainer, himg]
  · simp [cmdContainer_env]

/-- C6.  Environment-variable parsing (`configure_container`): a string
of the environment-variable list containing no `=` character makes the
stage fail with the invalid-environment-variable error; a string splitting at its first `=`
into name `n` and value `v` is exactly the string `n = v` with `n` free of
`=` (so splitting happens at the first `=` only, `NAME=a=b` giving value
`a=b`), and the stage succeeds appending exactly the one entry `n = v` to
the container's environment list. -/
theorem configure_container_env_spec (shlexSplit : String → List String)
    (pod : V1Pod) (cmd : String) (img : Option String) (s n v : String)
    (vars : List String) (c : V1Container) (rest : List V1Container)
    (hc : pod.spec.containers = c :: rest) :
    (s ∈ vars → '=' ∉ s.data →
      configure_container shlexSplit pod cmd img (some vars) =
        .error .invalidEnvVar) ∧
    (splitFirstEq s = some (n, v) →
      s.data = n.data ++ '=' :: v.data ∧ '=' ∉ n.data ∧
      ∃ pod' c0,
        configure_container shlexSplit pod cmd img (some [s]) = .ok pod' ∧
        pod'.spec.containers = c0 :: rest ∧
        c0.env = some (c.env.getD [] ++ [⟨n, v⟩])) := by
  constructor
  · intro hsmem hno
    have hsplit : splitFirstEq s = none := by
      simp [splitFirstEq, splitEqAux_eq_none.mpr hno]
    have hvars : ¬ vars = [] := by rintro rfl; cases hsmem
    simp [configure_container, hc, hvars,
      appendEnvVars_mem_error hsmem hsplit]
  · intro hsp
    obtain ⟨⟨a0, b0⟩, hs, heq⟩ := Option.map_eq_some'.mp hsp
    obtain ⟨ha, hb⟩ : String.mk a0 = n ∧ String.mk b0 = v := by simpa using heq
    have hna : n.data = a0 := by rw [← ha]
    have hvb : v.data = b0 := by rw [← hb]
    rcases splitEqAux_eq_some hs with ⟨hcs, hnotin⟩
    refine ⟨?_, ?_, configure_container_appends hc hsp⟩
    · rw [hcs, hna, hvb]
    · rw [hna]; exact hnotin

/-- Witness for C6: on a concrete single-container pod, the `=`-free
string `PATH` is rejected, and `NAME=a=b` is appended as the single entry
with name `NAME` and value `a=b`. -/
theorem configure_container_env_spec_witness :
    configure_container (fun str => [str]) (mkPod "web" [mkContainer "a"])
        "sh" none (some ["PATH"]) = .error .invalidEnvVar ∧
    "NAME=a=b".data = "NAME".data ++ '=' :: "a=b".data ∧
    (∃ pod' c0,
      configure_container (fun str => [str]) (mkPod "web" [mkContainer "a"])
          "sh" none (some ["NAME=a=b"]) = .ok pod' ∧
      pod'.spec.containers = c0 :: [] ∧
      c0.env = some [⟨"NAME", "a=b"⟩]) := by
  have h1 := configure_container_env_spec (fun str => [str])
    (mkPod "web" [mkContainer "a"]) "sh" none "PATH" "" "" ["PATH"]
    (mkContainer "a") [] rfl
  have h2 := configure_container_env_spec (fun str => [str])
    (mkPod "web" [mkContainer "a"]) "sh" none "NAME=a=b" "NAME" "a=b"
    ["NAME=a=b"] (mkContainer "a") [] rfl
  refine ⟨h1.1 (by decide) (by decide), ?_, ?_⟩
  · exact (h2.2 (by decide)).1
  · rcases (h2.2 (by decide)).2.2 with ⟨pod', c0, hok, hcs, henv⟩
    exact ⟨pod', c0, hok, hcs, by simpa [mkContainer] using henv⟩

/-- C10.  Empty environment-variable name (`configure_container`): a
string starting with `=` does not make the stage fail; it appends one
entry whose name is the empty string and whose value is the remainder
after the first `=`. -/
theorem configure_container_empty_env_name (shlexSplit : String → List String)
    (pod : V1Pod) (cmd : String) (img : Option String) (v : String)
    (c : V1Container) (rest : List V1Container)
    (hc : pod.spec.containers = c :: rest) :
    ∃ pod' c0,
      configure_container shlexSplit pod cmd img (some ["=" ++ v]) = .ok pod' ∧
      pod'.spec.containers = c0 :: rest ∧
      c0.env = some (c.env.getD [] ++ [⟨"", v⟩]) := by
  have hd : ("=" ++ v).data = '=' :: v.data := by
    simp [String.data_append]
  have hsp : splitFirstEq ("=" ++ v) = some ("", v) := by
    simp [splitFirstEq, hd, splitEqAux]
  exact configure_container_appends hc hsp

/-- Witness for C10: the concrete input `=value` on a single-container pod
is accepted and yields the entry with empty name and value `value`. -/
theorem configure_container_empty_env_name_witness :
    ∃ pod' c0,
      configure_container (fun str => [str]) (mkPod "web" [mkContainer "a"])
          "sh" none (some ["=" ++ "value"]) = .ok pod' ∧
      pod'.spec.containers = c0 :: [] ∧
      c0.env = some [⟨"", "value"⟩] := by
  rcases configure_container_empty_env_name (fun str => [str])
      (mkPod "web" [mkContainer "a"]) "sh" none "value" (mkContainer "a") []
      rfl with ⟨pod', c0, hok, hcs, henv⟩
  exact ⟨pod', c0, hok, hcs, by simpa [mkContainer] using henv⟩

/-- The "add" capability list produced by `add_capabilities` for a first
container `c`, spelled out for proofs: the pre-existing entries (also when
the security-context or capabilities sub-objects were absent, or the
pre-existing list empty) followed by the flattened upper-cased tokens. -/
def mergedAdd (c : V1Container) (caps : List String) : List String :=
  let cap := (c.security_context.getD { capabilities := none
    }).capabilities.getD { add := none }
  match cap.add with
  | some l => if l = [] then flattenCaps caps else l ++ flattenCaps caps
  | none => flattenCaps caps

/-- The first container as rewritten by `add_capabilities`, spelled out
for proofs. -/
def mergedContainer (c : V1Container) (caps : List String) : V1Container :=
  let sc := c.security_context.getD { capabilities := none }
  let cap := sc.capabilities.getD { add := none }
  let cap2 : V1Capabilities := { cap with add := some (mergedAdd c caps) }
  let sc2 : V1SecurityContext := { sc with capabilities := some cap2 }
  { c with security_context := some sc2 }

theorem add_capabilities_cons (pod : V1Pod) (caps : List String)
    (c : V1Container) (rest : List V1Container)
    (hc : pod.spec.containers = c :: rest) (hcap : caps ≠ []) :
    add_capabilities pod caps = .ok { pod with spec := { pod.spec with
      containers := mergedContainer c caps :: rest } } := by
  simp only [add_capabilities, hc]
  rw [if_neg hcap]
  rfl

theorem containerAddList_merged (c : V1Container) (caps : List String) :
    containerAddList (mergedContainer c caps) =
      containerAddList c ++ flattenCaps caps := by
  show mergedAdd c caps = containerAddList c ++ flattenCaps caps
  unfold mergedAdd
  cases h0 : ((c.security_context.getD { capabilities := none
      }).capabilities.getD { add := none }).add with
  | none => simp [containerAddList, h0]
  | some l => by_cases hl : l = [] <;> simp [containerAddList, h0, hl]

/-- C7.  Capability merge (`add_capabilities`): on a pod with a first
container, the stage succeeds, leaves the remaining containers alone, and
the resulting "add" capability list is exactly the pre-existing entries in
their original order followed by the caller-supplied tokens flattened
across commas and upper-cased, in input order (hence a superset of the
pre-existing entries, with nothing deduplicated). -/
theorem add_capabilities_spec (pod : V1Pod) (caps : List String)
    (c : V1Container) (rest : List V1Container)
    (hc : pod.spec.containers = c :: rest) :
    ∃ pod' c0, add_capabilities pod caps = .ok pod' ∧
      pod'.spec.containers = c0 :: rest ∧
      containerAddList c0 = containerAddList c ++ flattenCaps caps ∧
      ∀ x, x ∈ containerAddList c → x ∈ containerAddList c0 := by
  by_cases hcap : caps = []
  · subst hcap
    exact ⟨pod, c, by simp [add_capabilities], hc, by simp [flattenCaps],
      fun x hx => hx⟩
  · refine ⟨_, mergedContainer c caps,
      add_capabilities_cons pod caps c rest hc hcap, rfl,
      containerAddList_merged c caps, ?_⟩
    intro x hx
    rw [containerAddList_merged]
    exact List.mem_append_left _ hx

/-- A container already carrying the capability `KILL`, for the C7
witness. -/
def capContainer : V1Container :=
  let caps : V1Capabilities := { add := some ["KILL"] }
  { mkContainer "app" with security_context := some { capabilities := some caps } }

/-- Witness for C7: two capability groups, one comma-separated, merged
onto a container already granting `KILL`: the flattening upper-cases and
keeps input order, and the merged list starts with `KILL`. -/
theorem add_capabilities_spec_witness :
    flattenCaps ["net_admin,sys_ptrace", "chown"] =
      ["NET_ADMIN", "SYS_PTRACE", "CHOWN"] ∧
    ∃ pod' c0,
      add_capabilities (mkPod "web" [capContainer])
          ["net_admin,sys_ptrace", "chown"] = .ok pod' ∧
      pod'.spec.containers = c0 :: [] ∧
      containerAddList c0 = ["KILL", "NET_ADMIN", "SYS_PTRACE", "CHOWN"] := by
  rcases add_capabilities_spec (mkPod "web" [capContainer])
      ["net_admin,sys_ptrace", "chown"] capContainer [] rfl with
    ⟨pod', c0, hok, hcs, hadd, _⟩
  refine ⟨by decide, pod', c0, hok, hcs, ?_⟩
  rw [hadd]
  decide

/-- C9.  Container-index safety: the selection stage, when it succeeds on
a pod with a non-empty container list, yields a pod whose container list
is still non-empty, so the unguarded first-element accesses of
`clear_fields`, `configure_container` and `add_capabilities` are in
bounds (none of them can signal the index error) on such a pod; and on a
pod with an empty container list and no container name given, selection
itself succeeds without error. -/
theorem container_index_safety (pod : V1Pod) (cn : Option String)
    (shlexSplit : String → List String) (cmd : String) (img : Option String)
    (envs : Option (List String)) (caps : List String) :
    (∀ pod', pod.spec.containers ≠ [] →
      remove_extra_containers pod cn = .ok pod' →
      pod'.spec.containers ≠ []) ∧
    (pod.spec.containers ≠ [] →
      clear_fields pod ≠ .error .indexError ∧
      configure_container shlexSplit pod cmd img envs ≠ .error .indexError ∧
      add_capabilities pod caps ≠ .error .indexError) ∧
    (pod.spec.containers = [] → remove_extra_containers pod none = .ok pod) := by
  refine ⟨?_, ?_, ?_⟩
  · intro pod' hne hok
    unfold remove_extra_containers at hok
    split at hok
    · split at hok
      · exact absurd hok (by simp)
      · obtain rfl : pod = pod' := by simpa using hok
        exact hne
    · split at hok
      · exact absurd hok (by simp)
      · obtain rfl : _ = pod' := by simpa using hok
        simp
  · intro hne
    cases hcs : pod.spec.containers with
    | nil => exact absurd hcs hne
    | cons c rest =>
        refine ⟨?_, configure_container_ne_indexError hcs, ?_⟩
        · simp [clear_fields, hcs]
        · simp only [add_capabilities, hcs]
          split
          · simp
          · simp
  · intro hcs
    simp [remove_extra_containers, strFalsy, hcs]

/-- Witness for C9 on concrete pods: selecting container `b` from a
two-container pod leaves a non-empty container list; the later stages
signal no index error on that pod; and selection on a zero-container pod
with no name succeeds. -/
theorem container_index_safety_witness :
    ({ mkPod "web" [mkContainer "a", mkContainer "b"] with
        spec := { (mkPod "web" [mkContainer "a", mkContainer "b"]).spec with
          containers := [mkContainer "b"] } } : V1Pod).spec.containers ≠ [] ∧
    clear_fields (mkPod "web" [mkContainer "a", mkContainer "b"]) ≠
      .error .indexError ∧
    configure_container (fun str => [str])
      (mkPod "web" [mkContainer "a", mkContainer "b"]) "sh" none none ≠
      .error .indexError ∧
    add_capabilities (mkPod "web" [mkContainer "a", mkContainer "b"]) [] ≠
      .error .indexError ∧
    remove_extra_containers (mkPod "empty" []) none = .ok (mkPod "empty" []) := by
  have h := container_index_safety (mkPod "web" [mkContainer "a", mkContainer "b"])
    (some "b") (fun str => [str]) "sh" none none []
  have h0 := container_index_safety (mkPod "empty" []) none
    (fun str => [str]) "sh" none none []
  refine ⟨?_, ?_, ?_, ?_, h0.2.2 rfl⟩
  · exact h.1 _ (by simp [mkPod]) (by rfl)
  · exact (h.2.1 (by simp [mkPod])).1
  · exact (h.2.1 (by simp [mkPod])).2.1
  · exact (h.2.1 (by simp [mkPod])).2.2

/-- One cluster response to a `read_namespaced_pod` poll, as seen by
`wait_until_running`: either the read succeeds and reports the pod's
status phase, or the client raises `ApiException` carrying the cluster's
reason (error-kind API response). -/
inductive PollResult where
  | ok (phase : Option String)
  | apiError (reason : String)
  deriving DecidableEq, Repr

/-- Outcome of unrolling the polling loop: it returned after the poll at
the given index reported phase "Running", having slept the given total
seconds (one second after every earlier poll); or an `ApiException`
propagated out of the poll at the given index; or the loop was still
going when the unrolling fuel ran out. -/
inductive WaitOutcome where
  | running (idx : Nat) (sleptSeconds : Nat)
  | raised (idx : Nat) (reason : String)
  | stillPolling
  deriving DecidableEq, Repr

/-- Embeds the body of `kube.wait_until_running` (kube.py lines 55-60)
over an abstract poll sequence `poll`, where `poll k` is the cluster's
response to the k-th `read_namespaced_pod` call: the loop returns as soon
as a poll reports phase "Running" and sleeps one second after every other
poll; an `ApiException` from a poll propagates, there being no handler in
the function.  `k` is the next poll index, `s` the seconds slept so far,
`fuel` bounds how far the infinite loop is unrolled. -/
def waitAux (poll : Nat → PollResult) : Nat → Nat → Nat → WaitOutcome
  | 0, _, _ => .stillPolling
  | fuel + 1, k, s =>
      match poll k with
      | .apiError r => .raised k r
      | .ok phase =>
          if phase = some "Running" then .running k s
          else waitAux poll fuel (k + 1) (s + 1)

/-- Embeds `kube.wait_until_running` (kube.py lines 51-60): run the
polling loop from the first poll. -/
def wait_until_running (poll : Nat → PollResult) (fuel : Nat) : WaitOutcome :=
  waitAux poll fuel 0 0

theorem waitAux_reaches (poll : Nat → PollResult) :
    ∀ (fuel n k s : Nat),
      poll (k + n) = .ok (some "Running") →
      (∀ m, m < n → ∃ p, poll (k + m) = .ok p ∧ p ≠ some "Running") →
      n < fuel →
      waitAux poll fuel k s = .running (k + n) (s + n) := by
  intro fuel
  induction fuel with
  | zero => intro n k s _ _ hfuel; omega
  | succ fuel ih =>
      intro n k s hrun hbefore hfuel
      cases n with
      | zero =>
          have h0 : poll k = .ok (some "Running") := by simpa using hrun
          simp [waitAux, h0]
      | succ n' =>
          rcases hbefore 0 (by omega) with ⟨p, hp, hpne⟩
          have hp' : poll k = .ok p := by simpa using hp
          have hstep := ih n' (k + 1) (s + 1)
            (by rw [show k + 1 + n' = k + (n' + 1) by omega]; exact hrun)
            (fun m hm => by
              rw [show k + 1 + m = k + (m + 1) by omega]
              exact hbefore (m + 1) (by omega))
            (by omega)
          calc waitAux poll (fuel + 1) k s
              = waitAux poll fuel (k + 1) (s + 1) := by simp [waitAux, hp', hpne]
            _ = .running (k + 1 + n') (s + 1 + n') := hstep
            _ = .running (k + (n' + 1)) (s + (n' + 1)) := by
                  rw [show k + 1 + n' = k + (n' + 1) by omega,
                      show s + 1 + n' = s + (n' + 1) by omega]

theorem waitAux_running_sound (poll : Nat → PollResult) :
    ∀ (fuel k s idx slept : Nat),
      waitAux poll fuel k s = .running idx slept →
      k ≤ idx ∧ slept = s + (idx - k) ∧
      poll idx = .ok (some "Running") ∧
      ∀ m, k ≤ m → m < idx → poll m ≠ .ok (some "Running") := by
  intro fuel
  induction fuel with
  | zero => intro k s idx slept h; exact absurd h (by simp [waitAux])
  | succ fuel ih =>
      intro k s idx slept h
      unfold waitAux at h
      cases hp : poll k with
      | apiError r => rw [hp] at h; exact absurd h (by simp)
      | ok phase =>
          rw [hp] at h
          by_cases hrun : phase = some "Running"
          · obtain ⟨rfl, rfl⟩ : k = idx ∧ s = slept := by simpa [hrun] using h
            subst hrun
            exact ⟨le_refl _, by omega, hp, fun m hm1 hm2 => by omega⟩
          · have h' : waitAux poll fuel (k + 1) (s + 1) = .running idx slept := by
              simpa [hrun] using h
            rcases ih (k + 1) (s + 1) idx slept h' with ⟨hle, hslept, hidx, hbet⟩
            refine ⟨by omega, by omega, hidx, ?_⟩
            intro m hm1 hm2
            rcases Nat.eq_or_lt_of_le hm1 with rfl | hlt
            · rw [hp]
              intro hcontra
              exact hrun (by simpa using hcontra)
            · exact hbet m (by omega) hm2

/-- C2.  The polling wait (`wait_until_running`): whenever the poll
sequence first reports phase "Running" at poll `n` (every earlier poll
succeeding with some other phase), the loop — given enough unrolling
fuel — returns exactly at that poll having slept one second after each of
the `n` earlier polls; and conversely every return of the loop happens at
a poll reporting "Running", with no earlier poll reporting "Running", so
the loop never returns while the reported phase is anything else. -/
theorem wait_until_running_spec (poll : Nat → PollResult) (n fuel : Nat)
    (hrun : poll n = .ok (some "Running"))
    (hbefore : ∀ m, m < n → ∃ p, poll m = .ok p ∧ p ≠ some "Running")
    (hfuel : n < fuel) :
    wait_until_running poll fuel = .running n n ∧
    ∀ idx slept, wait_until_running poll fuel = .running idx slept →
      idx = n ∧ slept = n ∧ poll idx = .ok (some "Running") ∧
      ∀ m, m < idx → poll m ≠ .ok (some "Running") := by
  have hreach := waitAux_reaches poll fuel n 0 0 (by simpa using hrun)
    (fun m hm => by simpa using hbefore m hm) hfuel
  have hreach' : wait_until_running poll fuel = .running n n := by
    simpa [wait_until_running] using hreach
  refine ⟨hreach', ?_⟩
  intro idx slept h
  rcases waitAux_running_sound poll fuel 0 0 idx slept h with
    ⟨_, hslept, hidx, hnone⟩
  obtain rfl : idx = n := by
    rcases Nat.lt_trichotomy idx n with hlt | heq | hgt
    · rcases hbefore idx hlt with ⟨p, hp, hpne⟩
      rw [hidx] at hp
      exact absurd (by simpa using hp.symm) hpne
    · exact heq
    · exact absurd hrun (hnone n (by omega) hgt)
  exact ⟨rfl, by omega, hidx, fun m hm => hnone m (by omega) hm⟩

/-- A concrete poll sequence for the C2 witness: "Pending" twice, then
"Running". -/
def pollPending : Nat → PollResult :=
  fun k => if k < 2 then .ok (some "Pending") else .ok (some "Running")

/-- Witness for C2: with polls reporting "Pending", "Pending", "Running",
the loop returns at poll index 2 having slept 2 seconds. -/
theorem wait_until_running_spec_witness :
    wait_until_running pollPending 10 = .running 2 2 := by
  exact (wait_until_running_spec pollPending 2 10 (by decide)
    (fun m hm => ⟨some "Pending", by simp [pollPending]; omega, by decide⟩)
    (by omega)).1

/-- A poll sequence whose first response is an error-kind API response,
for the C8 counterexample. -/
def pollErr : Nat → PollResult :=
  fun k => if k = 0 then .apiError "boom" else .ok (some "Running")

/-- Counterexample to C8 as stated: the poll at index 0 is an error-kind
cluster response, and the loop does NOT continue polling past it — it
aborts by propagating the exception, never reaching the "Running" poll at
index 1. -/
theorem wait_until_running_api_error_aborts :
    pollErr 1 = .ok (some "Running") ∧
    wait_until_running pollErr 10 = .raised 0 "boom" := by
  exact ⟨rfl, rfl⟩

/-- C8 (amended).  Polling error tolerance (`wait_until_running`): every
successfully read pod state whose phase is not "Running" — in particular
the error phases "Failed" and "Unknown" — is non-fatal: the loop sleeps
and polls again rather than aborting the invocation.  (An error-kind API
response, by contrast, raises out of the loop: there is no handler.) -/
theorem wait_poll_error_phase_nonfatal (poll : Nat → PollResult)
    (k s fuel : Nat) (p : Option String)
    (hp : poll k = .ok p) (hne : p ≠ some "Running") :
    waitAux poll (fuel + 1) k s = waitAux poll fuel (k + 1) (s + 1) := by
  simp [waitAux, hp, hne]

/-- A poll sequence constantly reporting the error phase "Failed", for
the C8 witness. -/
def pollFailed : Nat → PollResult :=
  fun _ => .ok (some "Failed")

/-- Witness for C8 (amended): a "Failed" poll makes the loop continue
with the next poll after one more second of sleep. -/
theorem wait_poll_error_phase_nonfatal_witness :
    waitAux pollFailed 3 0 0 = waitAux pollFailed 2 1 1 := by
  exact wait_poll_error_phase_nonfatal pollFailed 0 0 2 (some "Failed") rfl
    (by decide)

/-- Event in the interactive-mode tail of `main` (main.py lines 257-272),
in program order. -/
inductive Event where
  | attachExited (code : Int)
  | deleteCalled (gracePeriodSeconds : Nat)
  | deleteErrorPrinted (reason : String)
  | exited (code : Int)
  deriving DecidableEq, Repr

/-- Result of the `delete_namespaced_pod` call in the cleanup step:
success, or an `ApiException` carrying the cluster's reason. -/
inductive DeleteOutcome where
  | ok
  | apiError (reason : String)
  deriving DecidableEq, Repr

/-- Embeds the interactive-mode tail of `main` (main.py lines 257-272): the
attach subprocess has exited with `attachCode` (`subprocess.run` with
`check=False` raises nothing on a non-zero exit code); the pod is then
deleted with `V1DeleteOptions(grace_period_seconds=1)`; an `ApiException`
from the delete is caught and printed; finally
`sys.exit(result.returncode)` sets the process exit code.  Returns the
ordered event trace and the process exit code. -/
def main_interactive_tail (attachCode : Int) (delete : DeleteOutcome) :
    List Event × Int :=
  let events := [Event.attachExited attachCode]
  let events := events ++ [Event.deleteCalled 1]
  let events :=
    match delete with
    | .ok => events
    | .apiError r => events ++ [Event.deleteErrorPrinted r]
  (events ++ [Event.exited attachCode], attachCode)

/-- C3.  Interactive-mode cleanup (`main`, interactive tail): for every
attach exit code and every delete outcome, the delete call is made with a
grace period of exactly 1 second (and no other grace period) strictly
after the attach session ends, and the process exit code equals the
attach session's exit code — also when the delete raises, which is only
printed. -/
theorem main_interactive_tail_spec (attachCode : Int) (delete : DeleteOutcome) :
    (main_interactive_tail attachCode delete).2 = attachCode ∧
    (∀ g, Event.deleteCalled g ∈ (main_interactive_tail attachCode delete).1 →
      g = 1) ∧
    (∃ i j, i < j ∧
      (main_interactive_tail attachCode delete).1.get? i =
        some (Event.attachExited attachCode) ∧
      (main_interactive_tail attachCode delete).1.get? j =
        some (Event.deleteCalled 1)) ∧
    (main_interactive_tail attachCode delete).1.getLast? =
      some (Event.exited attachCode) := by
  cases delete with
  | ok =>
      refine ⟨rfl, ?_, ⟨0, 1, by omega, rfl, rfl⟩, by
        simp [main_interactive_tail]⟩
      intro g hg
      simpa [main_interactive_tail] using hg
  | apiError r =>
      refine ⟨rfl, ?_, ⟨0, 1, by omega, rfl, rfl⟩, by
        simp [main_interactive_tail]⟩
      intro g hg
      simpa [main_interactive_tail] using hg

/-- Witness for C3 at the spec's concrete scenario: attach exits with
code 3 and the delete subsequently fails; the delete was called with grace
period 1 and the process exit code is 3. -/
theorem main_interactive_tail_spec_witness :
    (main_interactive_tail 3 (.apiError "denied")).2 = 3 ∧
    (∃ i j, i < j ∧
      (main_interactive_tail 3 (.apiError "denied")).1.get? i =
        some (Event.attachExited 3) ∧
      (main_interactive_tail 3 (.apiError "denied")).1.get? j =
        some (Event.deleteCalled 1)) := by
  have h := main_interactive_tail_spec 3 (.apiError "denied")
  exact ⟨h.1, h.2.2.1⟩

end Copypod
